import Mathlib

/-!
Verification of the ldappool package: a server pool with liveness probing and
backoff (server.go) and a channel-based connection pool (channel.go).

Times are modelled as Int nanoseconds (Go time.Time / time.Duration); the
clock is a parameter fixed for the duration of one call.  Network effects are
oracles: a tcp probe oracle indexed by a running probe counter, a dial oracle
indexed by a running dial counter, and a per-connection liveness oracle.  Each
selection call additionally records a trace of scan events (which candidate
was skipped, which was probed and with what outcome) so that temporal claims
about a single call can be stated.
-/

namespace LdapPool

/-- Go: poolStrategy with constants FIRST and RR (server.go lines 9-14). -/
inductive poolStrategy
  | FIRST
  | RR
  deriving DecidableEq, Repr, Inhabited

/-- Go: struct server (server.go lines 16-21). -/
structure server where
  address : String
  alive : Bool
  checkTimeout : Int
  lastCheck : Int
  deriving DecidableEq, Repr, Inhabited

/-- Go: struct serverPool (server.go lines 33-38). -/
structure serverPool where
  servers : List server
  lastUsed : Int
  strategy : poolStrategy
  checkRetryTimeout : Int
  deriving DecidableEq, Repr, Inhabited

/-- One recorded event of the scan in findActiveServer: a candidate index was
either skipped by the dead-server backoff rule, or actively probed with the
given outcome. -/
inductive ScanEvent
  | skip (i : Nat)
  | probe (i : Nat) (ok : Bool)
  deriving DecidableEq, Repr

/-- The candidate index an event refers to. -/
def ScanEvent.idx : ScanEvent → Nat
  | ScanEvent.skip i => i
  | ScanEvent.probe i _ => i

/-- Result of scanning a list of candidate offsets: the found index (if any),
the updated server entries, the advanced probe counter and the event trace. -/
structure ScanResult where
  found : Option Nat
  servers : List server
  ctr : Nat
  trace : List ScanEvent
  deriving DecidableEq, Repr

/-- The body of the scan loops of findActiveServer (server.go lines 68-91):
the outer loop runs the inner pass three times, and the inner pass walks the
candidate offsets in circular order.  Here the full sequence of candidate
offsets is taken as a list and consumed left to right.  For each candidate:
a dead entry checked more recently than the retry timeout is skipped without
probing; otherwise lastCheck is set to the current time and the entry is
probed, a success marking it alive and ending the scan, a failure marking it
dead and continuing. -/
def scanServers (probe : Nat → Bool) (retry now : Int) :
    List Int → List server → Nat → ScanResult
  | [], ss, k => ⟨none, ss, k, []⟩
  | off :: rest, ss, k =>
    let i := off.toNat
    let s := ss.getD i default
    if s.alive = false ∧ now - s.lastCheck < retry then
      let r := scanServers probe retry now rest ss k
      { r with trace := ScanEvent.skip i :: r.trace }
    else
      let ok := probe k
      let ss2 := ss.set i { s with lastCheck := now, alive := ok }
      if ok then ⟨some i, ss2, k + 1, [ScanEvent.probe i true]⟩
      else
        let r := scanServers probe retry now rest ss2 (k + 1)
        { r with trace := ScanEvent.probe i false :: r.trace }

/-- The starting-index normalisation of findActiveServer (server.go lines
63-65): a starting value at or beyond the pool size is reset to 0. -/
def startIndex (N : Nat) (starting : Int) : Int :=
  if starting ≥ (N : Int) then 0 else starting

/-- One circular pass of candidate offsets from a starting index (server.go
lines 70-76): index runs 0..N-1 and the offset is index + starting, wrapped
by subtracting N once it reaches N. -/
def offsetsFor (N : Nat) (st : Int) : List Int :=
  (List.range N).map
    (fun (idx : Nat) =>
      if (idx : Int) + st < (N : Int) then (idx : Int) + st else (idx : Int) + st - (N : Int))

/-- The full candidate-evaluation order of findActiveServer: three identical
circular passes (counter = 3, server.go line 66). -/
def evalOrder (N : Nat) (st : Int) : List Int :=
  offsetsFor N st ++ (offsetsFor N st ++ offsetsFor N st)

/-- Go: serverPool.findActiveServer (server.go lines 61-93).  Returns the
found index or the exhaustion error, together with the mutated pool, the
advanced probe counter and the scan trace. -/
def serverPool.findActiveServer (c : serverPool) (probe : Nat → Bool) (now : Int)
    (k : Nat) (starting : Int) :
    Except String Nat × serverPool × Nat × List ScanEvent :=
  let N := c.servers.length
  let r := scanServers probe c.checkRetryTimeout now (evalOrder N (startIndex N starting)) c.servers k
  match r.found with
  | some i => (Except.ok i, { c with servers := r.servers }, r.ctr, r.trace)
  | none => (Except.error "no active ldap server found", { c with servers := r.servers }, r.ctr, r.trace)

/-- Go: serverPool.Get (server.go lines 40-59).  On an empty pool it fails;
otherwise it starts from lastUsed + 1 under RR and from 0 under FIRST, and a
successful find records the returned index in lastUsed and returns the
address of that entry. -/
def serverPool.Get (c : serverPool) (probe : Nat → Bool) (now : Int) (k : Nat) :
    Except String String × serverPool × Nat × List ScanEvent :=
  if c.servers.length ≠ 0 then
    let starting : Int := if c.strategy = poolStrategy.RR then c.lastUsed + 1 else 0
    match c.findActiveServer probe now k starting with
    | (Except.ok i, c1, k1, tr) =>
        (Except.ok ((c1.servers.getD i default).address), { c1 with lastUsed := (i : Int) }, k1, tr)
    | (Except.error e, c1, k1, tr) => (Except.error e, c1, k1, tr)
  else
    (Except.error "ldap server pool is empty", c, k, [])

/-- Go: NewServerPool (server.go lines 95-119).  Millisecond arguments are
converted to durations (nanoseconds); every entry starts alive with lastCheck
set to the construction time. -/
def NewServerPool (servers : List String) (checkRetryTimeout serverCheckTimeout : Int)
    (roundrobin : Bool) (now : Int) : Except String serverPool :=
  let strategy := if roundrobin then poolStrategy.RR else poolStrategy.FIRST
  if servers.length = 0 then
    Except.error "incoming ldap server list is empty"
  else
    Except.ok
      { servers := servers.map (fun a =>
          { address := a, alive := true,
            checkTimeout := serverCheckTimeout * 1000000, lastCheck := now }),
        lastUsed := -1, strategy := strategy,
        checkRetryTimeout := checkRetryTimeout * 1000000 }

/-- Connections are identified by numeric ids.  Observable physical effects
of the connection pool are recorded as actions: physically closing a
connection, rejecting and logging a nil release, attempting a dial (by dial
counter), and creating a new connection with a given id. -/
inductive PoolAction
  | closeConn (id : Nat)
  | logNilReject
  | dialAttempt (n : Nat)
  | created (id : Nat)
  deriving DecidableEq, Repr

/-- Go: struct channelPool (channel.go lines 14-22).  The buffered channel of
connections is a bounded FIFO list; a nil channel (closed pool) is None.  A
buffer slot may hold nil (None), mirroring the zero value of the channel
element type. -/
structure channelPool where
  conns : Option (List (Option Nat))
  maxCap : Nat
  serverPool : serverPool
  useTLS : Bool
  closeAt : List Nat
  deriving DecidableEq, Repr

/-- Errors surfaced by the connection pool: the closed-pool error, a message
error (capacity settings, server-pool exhaustion), a dial failure, and the
factory wrapper around a construction-time failure. -/
inductive PErr
  | closed
  | msg (s : String)
  | dialFailed
  | factory (e : PErr)
  deriving DecidableEq, Repr

/-- Go: struct PoolConn.  Its source file is not under src (only channel.go
uses it); modelled from the spec: a wrapper that exclusively owns one
underlying connection, carries the disposal code set, and tracks the result
code of the most recent operation on the connection. -/
structure PoolConn where
  Conn : Nat
  closeAt : List Nat
  lastResultCode : Option Nat
  deriving DecidableEq, Repr

/-- Go: channelPool.wrapConn (channel.go lines 171-175): wraps a connection
with the disposal code set (the back-reference to the pool is passed
explicitly to PoolConn.close instead). -/
def channelPool.wrapConn (_c : channelPool) (conn : Nat) (closeAt : List Nat) : PoolConn :=
  { Conn := conn, closeAt := closeAt, lastResultCode := none }

/-- Go: channelPool.put (channel.go lines 125-150): a nil connection is
rejected and logged; on a closed pool the connection is physically closed;
otherwise a non-blocking send buffers it when there is room and physically
closes it when the buffer is full. -/
def channelPool.put (c : channelPool) (conn : Option Nat) : channelPool × List PoolAction :=
  match conn with
  | none => (c, [PoolAction.logNilReject])
  | some id =>
    match c.conns with
    | none => (c, [PoolAction.closeConn id])
    | some buf =>
      if buf.length < c.maxCap then
        ({ c with conns := some (buf ++ [some id]) }, [])
      else
        (c, [PoolAction.closeConn id])

/-- Go: channelPool.Close (channel.go lines 152-167): swaps the channel for
nil; on an already-closed pool this is a no-op, otherwise every buffered
connection is drained and physically closed. -/
def channelPool.Close (c : channelPool) : channelPool × List PoolAction :=
  match c.conns with
  | none => (c, [])
  | some buf => ({ c with conns := none }, (buf.filterMap id).map PoolAction.closeConn)

/-- Go: channelPool.Len (channel.go line 169): the idle count; the length of
a nil channel is zero. -/
def channelPool.Len (c : channelPool) : Nat :=
  match c.conns with
  | none => 0
  | some buf => buf.length

/-- Whether a connection id sits in the idle buffer of the pool. -/
def inIdle (c : channelPool) (id : Nat) : Bool :=
  match c.conns with
  | none => false
  | some buf => buf.contains (some id)

/-- The network environment of the connection pool: the clock, the tcp probe
oracle of the server pool, the dial oracle (None means the dial failed) and
the per-connection liveness oracle used by isAlive. -/
structure NetEnv where
  now : Int
  probe : Nat → Bool
  dial : Nat → Option Nat
  alive : Nat → Bool

/-- The pool together with the running probe and dial counters that index the
oracles. -/
structure PState where
  pool : channelPool
  probeCtr : Nat
  dialCtr : Nat

/-- Go: channelPool.NewConn (channel.go lines 102-121): asks the server pool
for an address, then dials it (the TLS flag only selects the transport, which
the dial oracle absorbs); a successful dial is wrapped. -/
def channelPool.NewConn (st : PState) (env : NetEnv) (useTLS : Bool) :
    Except PErr PoolConn × PState × List PoolAction :=
  match st.pool.serverPool.Get env.probe env.now st.probeCtr with
  | (Except.error e, sp1, k1, _) =>
      (Except.error (PErr.msg e),
       { st with pool := { st.pool with serverPool := sp1 }, probeCtr := k1 }, [])
  | (Except.ok _addr, sp1, k1, _) =>
      let st1 : PState := { st with pool := { st.pool with serverPool := sp1 }, probeCtr := k1 }
      match env.dial st.dialCtr with
      | none =>
          (Except.error PErr.dialFailed, { st1 with dialCtr := st1.dialCtr + 1 },
           [PoolAction.dialAttempt st.dialCtr])
      | some id =>
          (Except.ok (st.pool.wrapConn id st.pool.closeAt), { st1 with dialCtr := st1.dialCtr + 1 },
           [PoolAction.dialAttempt st.dialCtr, PoolAction.created id])

/-- Go: channelPool.Get (channel.go lines 74-95): a closed pool fails with the
closed error; a non-blocking take from an empty buffer falls through to a
fresh dial; a taken nil fails with the closed error; a taken connection is
liveness-probed, handed out on success and physically closed with a fall
through to a fresh dial on failure. -/
def channelPool.Get (st : PState) (env : NetEnv) :
    Except PErr PoolConn × PState × List PoolAction :=
  match st.pool.conns with
  | none => (Except.error PErr.closed, st, [])
  | some [] => channelPool.NewConn st env st.pool.useTLS
  | some (c0 :: rest) =>
    let st1 : PState := { st with pool := { st.pool with conns := some rest } }
    match c0 with
    | none => (Except.error PErr.closed, st1, [])
    | some id =>
      if env.alive id then
        (Except.ok (st.pool.wrapConn id st.pool.closeAt), st1, [])
      else
        let r := channelPool.NewConn st1 env st.pool.useTLS
        (r.1, r.2.1, PoolAction.closeConn id :: r.2.2)

/-- Appends a freshly created connection to the idle buffer (the send
c.conns <- conn in NewChannelPool, channel.go line 58). -/
def pushConn (st : PState) (id : Nat) : PState :=
  { st with pool := { st.pool with conns := st.pool.conns.map (fun buf => buf ++ [some id]) } }

/-- The eager-fill loop of NewChannelPool (channel.go lines 52-59): dial
initialCap connections one by one; a failure closes the pool (and with it
every connection created so far) and fails the construction with the factory
error. -/
def fillPool (env : NetEnv) (useTLS : Bool) : Nat → PState → Except PErr PState × List PoolAction
  | 0, st => (Except.ok st, [])
  | n + 1, st =>
    match channelPool.NewConn st env useTLS with
    | (Except.ok pc, st1, a1) =>
      let r := fillPool env useTLS n (pushConn st1 pc.Conn)
      (r.1, a1 ++ r.2)
    | (Except.error e, st1, a1) =>
      let r := st1.pool.Close
      (Except.error (PErr.factory e), a1 ++ r.2)

/-- Go: NewChannelPool (channel.go lines 38-62): rejects invalid capacity
settings before doing anything else, then starts from an empty buffer of
capacity maxCap and eagerly fills initialCap connections. -/
def NewChannelPool (initialCap maxCap : Int) (servers : serverPool) (useTLS : Bool)
    (closeAt : List Nat) (env : NetEnv) : Except PErr PState × List PoolAction :=
  if initialCap < 0 ∨ maxCap ≤ 0 ∨ initialCap > maxCap then
    (Except.error (PErr.msg "invalid capacity settings"), [])
  else
    let st0 : PState :=
      { pool := { conns := some [], maxCap := maxCap.toNat, serverPool := servers,
                  useTLS := useTLS, closeAt := closeAt },
        probeCtr := 0, dialCtr := 0 }
    fillPool env useTLS initialCap.toNat st0

/-- Modelled from the spec: PoolConn.Close lives in a source file not present
under src (only channel.go references PoolConn).  Per the spec, every use of
a pooled connection ends with this call: when the most recent operation on
the connection produced a result code in the disposal set, the real teardown
is invoked and the connection is never returned to the pool; otherwise the
connection is released back through put. -/
def PoolConn.close (p : PoolConn) (c : channelPool) : channelPool × List PoolAction :=
  match p.lastResultCode with
  | some code =>
    if code ∈ p.closeAt then (c, [PoolAction.closeConn p.Conn])
    else c.put (some p.Conn)
  | none => c.put (some p.Conn)

/-- The outcome of the last probe of candidate i recorded in a trace, if i
was probed at all. -/
def lastProbeOutcome : List ScanEvent → Nat → Option Bool
  | [], _ => none
  | ScanEvent.probe j b :: rest, i =>
    match lastProbeOutcome rest i with
    | some c => some c
    | none => if j = i then some b else none
  | ScanEvent.skip _ :: rest, i => lastProbeOutcome rest i

theorem getD_set_self {α : Type} [Inhabited α] (l : List α) (i : Nat) (a : α)
    (h : i < l.length) : (l.set i a).getD i default = a := by
  simp [List.getD_eq_getElem?_getD, List.getElem?_set_self', h]

theorem getD_set_ne {α : Type} [Inhabited α] (l : List α) (i j : Nat) (a : α)
    (h : i ≠ j) : (l.set i a).getD j default = l.getD j default := by
  simp [List.getD_eq_getElem?_getD, List.getElem?_set_ne h]

theorem scanServers_nil (probe : Nat → Bool) (retry now : Int) (ss : List server) (k : Nat) :
    scanServers probe retry now [] ss k = ⟨none, ss, k, []⟩ := rfl

theorem scanServers_cons_skip (probe : Nat → Bool) (retry now off : Int) (rest : List Int)
    (ss : List server) (k : Nat)
    (h1 : (ss.getD off.toNat default).alive = false ∧
          now - (ss.getD off.toNat default).lastCheck < retry) :
    scanServers probe retry now (off :: rest) ss k =
      { scanServers probe retry now rest ss k with
        trace := ScanEvent.skip off.toNat :: (scanServers probe retry now rest ss k).trace } := by
  simp only [scanServers]
  rw [if_pos h1]

theorem scanServers_cons_ok (probe : Nat → Bool) (retry now off : Int) (rest : List Int)
    (ss : List server) (k : Nat)
    (h1 : ¬ ((ss.getD off.toNat default).alive = false ∧
             now - (ss.getD off.toNat default).lastCheck < retry))
    (h2 : probe k = true) :
    scanServers probe retry now (off :: rest) ss k =
      ⟨some off.toNat,
       ss.set off.toNat { ss.getD off.toNat default with lastCheck := now, alive := true },
       k + 1, [ScanEvent.probe off.toNat true]⟩ := by
  simp only [scanServers]
  rw [if_neg h1, h2]
  simp

theorem scanServers_cons_fail (probe : Nat → Bool) (retry now off : Int) (rest : List Int)
    (ss : List server) (k : Nat)
    (h1 : ¬ ((ss.getD off.toNat default).alive = false ∧
             now - (ss.getD off.toNat default).lastCheck < retry))
    (h2 : probe k = false) :
    scanServers probe retry now (off :: rest) ss k =
      { scanServers probe retry now rest
          (ss.set off.toNat { ss.getD off.toNat default with lastCheck := now, alive := false })
          (k + 1) with
        trace := ScanEvent.probe off.toNat false ::
          (scanServers probe retry now rest
            (ss.set off.toNat { ss.getD off.toNat default with lastCheck := now, alive := false })
            (k + 1)).trace } := by
  simp only [scanServers]
  rw [if_neg h1, h2]
  simp

theorem scanServers_servers_length (probe : Nat → Bool) (retry now : Int) :
    ∀ (offs : List Int) (ss : List server) (k : Nat),
      (scanServers probe retry now offs ss k).servers.length = ss.length
  | [], _, _ => rfl
  | off :: rest, ss, k => by
    by_cases h1 : (ss.getD off.toNat default).alive = false ∧
        now - (ss.getD off.toNat default).lastCheck < retry
    · rw [scanServers_cons_skip probe retry now off rest ss k h1]
      exact scanServers_servers_length probe retry now rest ss k
    · cases h2 : probe k with
      | true =>
        rw [scanServers_cons_ok probe retry now off rest ss k h1 h2]
        simp
      | false =>
        rw [scanServers_cons_fail probe retry now off rest ss k h1 h2]
        rw [scanServers_servers_length probe retry now rest _ (k + 1)]
        simp

theorem scanServers_found_spec (probe : Nat → Bool) (retry now : Int) :
    ∀ (offs : List Int) (ss : List server) (k : Nat),
      (∀ off ∈ offs, 0 ≤ off ∧ off.toNat < ss.length) →
      ∀ i, (scanServers probe retry now offs ss k).found = some i →
        (scanServers probe retry now offs ss k).trace.getLast? = some (ScanEvent.probe i true) ∧
        ((scanServers probe retry now offs ss k).servers.getD i default).alive = true
  | [], _, _, _, i, hfound => by rw [scanServers_nil] at hfound; cases hfound
  | off :: rest, ss, k, hb, i, hfound => by
    have hoff := hb off (List.mem_cons_self off rest)
    have hbrest : ∀ o ∈ rest, 0 ≤ o ∧ o.toNat < ss.length :=
      fun o ho => hb o (List.mem_cons_of_mem off ho)
    by_cases h1 : (ss.getD off.toNat default).alive = false ∧
        now - (ss.getD off.toNat default).lastCheck < retry
    · rw [scanServers_cons_skip probe retry now off rest ss k h1] at hfound ⊢
      dsimp only at hfound ⊢
      have ih := scanServers_found_spec probe retry now rest ss k hbrest i hfound
      refine ⟨?_, ih.2⟩
      rcases htr : (scanServers probe retry now rest ss k).trace with _ | ⟨e, tr⟩
      · rw [htr] at ih; simp at ih
      · rw [htr] at ih; rw [List.getLast?_cons_cons]; exact ih.1
    · cases h2 : probe k with
      | true =>
        rw [scanServers_cons_ok probe retry now off rest ss k h1 h2] at hfound ⊢
        dsimp only at hfound ⊢
        cases hfound
        refine ⟨rfl, ?_⟩
        rw [getD_set_self _ _ _ hoff.2]
      | false =>
        rw [scanServers_cons_fail probe retry now off rest ss k h1 h2] at hfound ⊢
        dsimp only at hfound ⊢
        have hlen : ∀ o ∈ rest, 0 ≤ o ∧ o.toNat <
            (ss.set off.toNat
              { ss.getD off.toNat default with lastCheck := now, alive := false }).length := by
          intro o ho
          rw [List.length_set]
          exact hbrest o ho
        have ih := scanServers_found_spec probe retry now rest _ (k + 1) hlen i hfound
        refine ⟨?_, ih.2⟩
        rcases htr : (scanServers probe retry now rest _ (k + 1)).trace with _ | ⟨e, tr⟩
        · rw [htr] at ih; simp at ih
        · rw [htr] at ih; rw [List.getLast?_cons_cons]; exact ih.1

theorem scanServers_none_of_all_false (probe : Nat → Bool) (retry now : Int)
    (hfail : ∀ j, probe j = false) :
    ∀ (offs : List Int) (ss : List server) (k : Nat),
      (scanServers probe retry now offs ss k).found = none
  | [], _, _ => rfl
  | off :: rest, ss, k => by
    by_cases h1 : (ss.getD off.toNat default).alive = false ∧
        now - (ss.getD off.toNat default).lastCheck < retry
    · rw [scanServers_cons_skip probe retry now off rest ss k h1]
      exact scanServers_none_of_all_false probe retry now hfail rest ss k
    · rw [scanServers_cons_fail probe retry now off rest ss k h1 (hfail k)]
      exact scanServers_none_of_all_false probe retry now hfail rest _ (k + 1)

theorem scanServers_trace_idx_of_none (probe : Nat → Bool) (retry now : Int) :
    ∀ (offs : List Int) (ss : List server) (k : Nat),
      (scanServers probe retry now offs ss k).found = none →
      (scanServers probe retry now offs ss k).trace.map ScanEvent.idx = offs.map Int.toNat
  | [], _, _, _ => rfl
  | off :: rest, ss, k, hnone => by
    by_cases h1 : (ss.getD off.toNat default).alive = false ∧
        now - (ss.getD off.toNat default).lastCheck < retry
    · rw [scanServers_cons_skip probe retry now off rest ss k h1] at hnone ⊢
      dsimp only at hnone ⊢
      simp only [List.map_cons, ScanEvent.idx]
      rw [scanServers_trace_idx_of_none probe retry now rest ss k hnone]
    · cases h2 : probe k with
      | true =>
        rw [scanServers_cons_ok probe retry now off rest ss k h1 h2] at hnone
        cases hnone
      | false =>
        rw [scanServers_cons_fail probe retry now off rest ss k h1 h2] at hnone ⊢
        dsimp only at hnone ⊢
        simp only [List.map_cons, ScanEvent.idx]
        rw [scanServers_trace_idx_of_none probe retry now rest _ (k + 1) hnone]

theorem lastProbeOutcome_none_of_not_mem (i : Nat) :
    ∀ tr : List ScanEvent, (∀ b, ScanEvent.probe i b ∉ tr) → lastProbeOutcome tr i = none
  | [], _ => rfl
  | ScanEvent.skip j :: rest, h => by
    simp only [lastProbeOutcome]
    exact lastProbeOutcome_none_of_not_mem i rest
      (fun b hb => h b (List.mem_cons_of_mem _ hb))
  | ScanEvent.probe j b :: rest, h => by
    simp only [lastProbeOutcome]
    rw [lastProbeOutcome_none_of_not_mem i rest
      (fun b' hb => h b' (List.mem_cons_of_mem _ hb))]
    have hji : j ≠ i := by
      intro hji
      exact h b (by rw [hji]; exact List.mem_cons_self _ _)
    simp [hji]

theorem scanServers_frame (probe : Nat → Bool) (retry now : Int) :
    ∀ (offs : List Int) (ss : List server) (k : Nat) (i : Nat),
      lastProbeOutcome (scanServers probe retry now offs ss k).trace i = none →
      (scanServers probe retry now offs ss k).servers.getD i default = ss.getD i default
  | [], _, _, _, _ => rfl
  | off :: rest, ss, k, i, hlp => by
    by_cases h1 : (ss.getD off.toNat default).alive = false ∧
        now - (ss.getD off.toNat default).lastCheck < retry
    · rw [scanServers_cons_skip probe retry now off rest ss k h1] at hlp ⊢
      dsimp only at hlp ⊢
      rw [lastProbeOutcome] at hlp
      exact scanServers_frame probe retry now rest ss k i hlp
    · cases h2 : probe k with
      | true =>
        rw [scanServers_cons_ok probe retry now off rest ss k h1 h2] at hlp ⊢
        dsimp only at hlp ⊢
        rw [lastProbeOutcome, lastProbeOutcome] at hlp
        have hji : off.toNat ≠ i := by
          intro hji
          rw [if_pos hji] at hlp
          cases hlp
        rw [getD_set_ne _ _ _ _ hji]
      | false =>
        rw [scanServers_cons_fail probe retry now off rest ss k h1 h2] at hlp ⊢
        dsimp only at hlp ⊢
        rw [lastProbeOutcome] at hlp
        rcases hrec : lastProbeOutcome
            (scanServers probe retry now rest
              (ss.set off.toNat
                { ss.getD off.toNat default with lastCheck := now, alive := false })
              (k + 1)).trace i with _ | c
        · rw [hrec] at hlp
          have hji : off.toNat ≠ i := by
            intro hji
            rw [if_pos hji] at hlp
            cases hlp
          rw [scanServers_frame probe retry now rest _ (k + 1) i hrec]
          rw [getD_set_ne _ _ _ _ hji]
        · rw [hrec] at hlp
          cases hlp

theorem scanServers_probed_spec (probe : Nat → Bool) (retry now : Int) :
    ∀ (offs : List Int) (ss : List server) (k : Nat),
      (∀ off ∈ offs, 0 ≤ off ∧ off.toNat < ss.length) →
      ∀ i b, lastProbeOutcome (scanServers probe retry now offs ss k).trace i = some b →
        ((scanServers probe retry now offs ss k).servers.getD i default).alive = b ∧
        ((scanServers probe retry now offs ss k).servers.getD i default).lastCheck = now
  | [], _, _, _, i, b, hlp => by cases hlp
  | off :: rest, ss, k, hb, i, b, hlp => by
    have hoff := hb off (List.mem_cons_self off rest)
    have hbrest : ∀ o ∈ rest, 0 ≤ o ∧ o.toNat < ss.length :=
      fun o ho => hb o (List.mem_cons_of_mem off ho)
    by_cases h1 : (ss.getD off.toNat default).alive = false ∧
        now - (ss.getD off.toNat default).lastCheck < retry
    · rw [scanServers_cons_skip probe retry now off rest ss k h1] at hlp ⊢
      dsimp only at hlp ⊢
      rw [lastProbeOutcome] at hlp
      exact scanServers_probed_spec probe retry now rest ss k hbrest i b hlp
    · cases h2 : probe k with
      | true =>
        rw [scanServers_cons_ok probe retry now off rest ss k h1 h2] at hlp ⊢
        dsimp only at hlp ⊢
        rw [lastProbeOutcome, lastProbeOutcome] at hlp
        by_cases hji : off.toNat = i
        · rw [if_pos hji] at hlp
          cases hlp
          rw [← hji, getD_set_self _ _ _ hoff.2]
          exact ⟨rfl, rfl⟩
        · rw [if_neg hji] at hlp
          cases hlp
      | false =>
        rw [scanServers_cons_fail probe retry now off rest ss k h1 h2] at hlp ⊢
        dsimp only at hlp ⊢
        rw [lastProbeOutcome] at hlp
        have hlen : ∀ o ∈ rest, 0 ≤ o ∧ o.toNat <
            (ss.set off.toNat
              { ss.getD off.toNat default with lastCheck := now, alive := false }).length := by
          intro o ho
          rw [List.length_set]
          exact hbrest o ho
        rcases hrec : lastProbeOutcome
            (scanServers probe retry now rest
              (ss.set off.toNat
                { ss.getD off.toNat default with lastCheck := now, alive := false })
              (k + 1)).trace i with _ | c
        · rw [hrec] at hlp
          by_cases hji : off.toNat = i
          · rw [if_pos hji] at hlp
            cases hlp
            rw [scanServers_frame probe retry now rest _ (k + 1) i hrec]
            rw [← hji, getD_set_self _ _ _ hoff.2]
            exact ⟨rfl, rfl⟩
          · rw [if_neg hji] at hlp
            cases hlp
        · rw [hrec] at hlp
          cases hlp
          exact scanServers_probed_spec probe retry now rest _ (k + 1) hlen i b hrec

theorem scanServers_dead_recent_not_probed (probe : Nat → Bool) (retry now : Int) :
    ∀ (offs : List Int) (ss : List server) (k : Nat) (i : Nat),
      (ss.getD i default).alive = false →
      now - (ss.getD i default).lastCheck < retry →
      ∀ b, ScanEvent.probe i b ∉ (scanServers probe retry now offs ss k).trace
  | [], _, _, _, _, _, _ => by
    rw [scanServers_nil]
    exact List.not_mem_nil _
  | off :: rest, ss, k, i, hdead, hrecent, b => by
    by_cases h1 : (ss.getD off.toNat default).alive = false ∧
        now - (ss.getD off.toNat default).lastCheck < retry
    · rw [scanServers_cons_skip probe retry now off rest ss k h1]
      dsimp only
      intro hmem
      rcases List.mem_cons.mp hmem with heq | hmem'
      · cases heq
      · exact scanServers_dead_recent_not_probed probe retry now rest ss k i
          hdead hrecent b hmem'
    · have hji : off.toNat ≠ i := by
        intro hji
        rw [hji] at h1
        exact h1 ⟨hdead, hrecent⟩
      cases h2 : probe k with
      | true =>
        rw [scanServers_cons_ok probe retry now off rest ss k h1 h2]
        dsimp only
        intro hmem
        rcases List.mem_cons.mp hmem with heq | hmem'
        · cases heq; exact hji rfl
        · exact List.not_mem_nil _ hmem'
      | false =>
        rw [scanServers_cons_fail probe retry now off rest ss k h1 h2]
        dsimp only
        intro hmem
        rcases List.mem_cons.mp hmem with heq | hmem'
        · cases heq; exact hji rfl
        · have hd : ((ss.set off.toNat
              { ss.getD off.toNat default with lastCheck := now, alive := false }).getD i
                default).alive = false := by
            rw [getD_set_ne _ _ _ _ hji]; exact hdead
          have hr : now - ((ss.set off.toNat
              { ss.getD off.toNat default with lastCheck := now, alive := false }).getD i
                default).lastCheck < retry := by
            rw [getD_set_ne _ _ _ _ hji]; exact hrecent
          exact scanServers_dead_recent_not_probed probe retry now rest _ (k + 1) i
            hd hr b hmem'

theorem scanServers_skip_after_probe (probe : Nat → Bool) (retry now : Int) :
    ∀ (offs : List Int) (ss : List server) (k : Nat) (C : Nat → Prop),
      (∀ j, (ss.getD j default).alive = false → C j) →
      ∀ (t1 : List ScanEvent) (i : Nat) (t2 : List ScanEvent),
        (scanServers probe retry now offs ss k).trace = t1 ++ ScanEvent.skip i :: t2 →
        C i ∨ ScanEvent.probe i false ∈ t1
  | [], _, _, _, _, t1, i, t2, heq => by
    rw [scanServers_nil] at heq
    exact absurd heq (by simp)
  | off :: rest, ss, k, C, hC, t1, i, t2, heq => by
    by_cases h1 : (ss.getD off.toNat default).alive = false ∧
        now - (ss.getD off.toNat default).lastCheck < retry
    · rw [scanServers_cons_skip probe retry now off rest ss k h1] at heq
      dsimp only at heq
      cases t1 with
      | nil =>
        simp only [List.nil_append] at heq
        have : i = off.toNat := by
          have := List.head_eq_of_cons_eq heq
          cases this
          rfl
        exact Or.inl (this ▸ hC off.toNat h1.1)
      | cons e t1' =>
        simp only [List.cons_append] at heq
        have htl := List.tail_eq_of_cons_eq heq
        rcases scanServers_skip_after_probe probe retry now rest ss k C hC t1' i t2 htl with
          hc | hm
        · exact Or.inl hc
        · exact Or.inr (List.mem_cons_of_mem _ hm)
    · cases h2 : probe k with
      | true =>
        rw [scanServers_cons_ok probe retry now off rest ss k h1 h2] at heq
        dsimp only at heq
        cases t1 with
        | nil =>
          simp only [List.nil_append] at heq
          have := List.head_eq_of_cons_eq heq
          cases this
        | cons e t1' =>
          simp only [List.cons_append] at heq
          have htl := List.tail_eq_of_cons_eq heq
          exact absurd htl (by simp)
      | false =>
        rw [scanServers_cons_fail probe retry now off rest ss k h1 h2] at heq
        dsimp only at heq
        have hC2 : ∀ j, ((ss.set off.toNat
            { ss.getD off.toNat default with lastCheck := now, alive := false }).getD j
              default).alive = false → (C j ∨ j = off.toNat) := by
          intro j hj
          by_cases hjo : off.toNat = j
          · exact Or.inr hjo.symm
          · rw [getD_set_ne _ _ _ _ hjo] at hj
            exact Or.inl (hC j hj)
        cases t1 with
        | nil =>
          simp only [List.nil_append] at heq
          have := List.head_eq_of_cons_eq heq
          cases this
        | cons e t1' =>
          simp only [List.cons_append] at heq
          have hhd := List.head_eq_of_cons_eq heq
          have htl := List.tail_eq_of_cons_eq heq
          rcases scanServers_skip_after_probe probe retry now rest _ (k + 1)
              (fun j => C j ∨ j = off.toNat) hC2 t1' i t2 htl with hc | hm
          · rcases hc with hc | hio
            · exact Or.inl hc
            · refine Or.inr ?_
              rw [← hhd, hio]
              exact List.mem_cons_self _ _
          · exact Or.inr (List.mem_cons_of_mem _ hm)

theorem scanServers_head_alive_ok (probe : Nat → Bool) (retry now off : Int)
    (rest : List Int) (ss : List server) (k : Nat)
    (halive : (ss.getD off.toNat default).alive = true) (hp : probe k = true) :
    scanServers probe retry now (off :: rest) ss k =
      ⟨some off.toNat,
       ss.set off.toNat { ss.getD off.toNat default with lastCheck := now, alive := true },
       k + 1, [ScanEvent.probe off.toNat true]⟩ :=
  scanServers_cons_ok probe retry now off rest ss k
    (fun h => by rw [halive] at h; cases h.1) hp

theorem startIndex_bounds (N : Nat) (starting : Int) (h0 : 0 ≤ starting) (hN : 0 < N) :
    0 ≤ startIndex N starting ∧ startIndex N starting < (N : Int) := by
  unfold startIndex
  split_ifs with h
  · exact ⟨le_refl 0, by exact_mod_cast hN⟩
  · exact ⟨h0, lt_of_not_ge h⟩

theorem offsetsFor_bounds (N : Nat) (st : Int) (h1 : 0 ≤ st) (h2 : st < (N : Int)) :
    ∀ off ∈ offsetsFor N st, 0 ≤ off ∧ off.toNat < N := by
  intro off hmem
  rcases List.mem_map.mp hmem with ⟨idx, hidx, hf⟩
  have hidxN : idx < N := List.mem_range.mp hidx
  subst hf
  split_ifs with h
  · constructor <;> omega
  · have : (idx : Int) < (N : Int) := by exact_mod_cast hidxN
    constructor <;> omega

theorem evalOrder_bounds (N : Nat) (st : Int) (h1 : 0 ≤ st) (h2 : st < (N : Int)) :
    ∀ off ∈ evalOrder N st, 0 ≤ off ∧ off.toNat < N := by
  intro off hmem
  unfold evalOrder at hmem
  rcases List.mem_append.mp hmem with h | h
  · exact offsetsFor_bounds N st h1 h2 off h
  · rcases List.mem_append.mp h with h | h
    · exact offsetsFor_bounds N st h1 h2 off h
    · exact offsetsFor_bounds N st h1 h2 off h

theorem offsetsFor_length (N : Nat) (st : Int) : (offsetsFor N st).length = N := by
  simp [offsetsFor]

theorem evalOrder_length (N : Nat) (st : Int) : (evalOrder N st).length = 3 * N := by
  simp only [evalOrder, List.length_append, offsetsFor_length]
  omega

theorem evalOrder_cons (N : Nat) (st : Int) (h1 : 0 ≤ st) (h2 : st < (N : Int)) :
    ∃ rest, evalOrder N st = st :: rest := by
  have hN : 0 < N := by
    by_contra h
    have : N = 0 := by omega
    subst this
    simp at h2
    omega
  rcases Nat.exists_eq_succ_of_ne_zero (Nat.pos_iff_ne_zero.mp hN) with ⟨m, hm⟩
  subst hm
  rw [evalOrder, offsetsFor, List.range_succ_eq_map]
  simp only [List.map_cons, Nat.cast_zero, zero_add, List.cons_append]
  rw [if_pos]
  · exact ⟨_, rfl⟩
  · push_cast
    omega

theorem offsetsFor_map_toNat_nodup (N : Nat) (st : Int) (h1 : 0 ≤ st) (h2 : st < (N : Int)) :
    ((offsetsFor N st).map Int.toNat).Nodup := by
  rw [offsetsFor, List.map_map]
  apply List.Nodup.map_on _ (List.nodup_range N)
  intro a ha b hb hab
  have haN : a < N := List.mem_range.mp ha
  have hbN : b < N := List.mem_range.mp hb
  simp only [Function.comp] at hab
  have haN' : (a : Int) < (N : Int) := by exact_mod_cast haN
  have hbN' : (b : Int) < (N : Int) := by exact_mod_cast hbN
  split_ifs at hab with hA hB hB <;> omega

theorem offsetsFor_map_toNat_count (N : Nat) (st : Int) (h1 : 0 ≤ st) (h2 : st < (N : Int))
    (i : Nat) : ((offsetsFor N st).map Int.toNat).count i ≤ 1 :=
  List.nodup_iff_count_le_one.mp (offsetsFor_map_toNat_nodup N st h1 h2) i

theorem evalOrder_map_toNat_count (N : Nat) (st : Int) (h1 : 0 ≤ st) (h2 : st < (N : Int))
    (i : Nat) : ((evalOrder N st).map Int.toNat).count i ≤ 3 := by
  simp only [evalOrder, List.map_append, List.count_append]
  have h := offsetsFor_map_toNat_count N st h1 h2 i
  omega

theorem scanServers_trace_idx_mem (probe : Nat → Bool) (retry now : Int) :
    ∀ (offs : List Int) (ss : List server) (k : Nat),
      ∀ e ∈ (scanServers probe retry now offs ss k).trace, e.idx ∈ offs.map Int.toNat
  | [], _, _, e, he => by rw [scanServers_nil] at he; cases he
  | off :: rest, ss, k, e, he => by
    by_cases h1 : (ss.getD off.toNat default).alive = false ∧
        now - (ss.getD off.toNat default).lastCheck < retry
    · rw [scanServers_cons_skip probe retry now off rest ss k h1] at he
      dsimp only at he
      rcases List.mem_cons.mp he with heq | he'
      · subst heq
        exact List.mem_cons_self _ _
      · exact List.mem_cons_of_mem _
          (scanServers_trace_idx_mem probe retry now rest ss k e he')
    · cases h2 : probe k with
      | true =>
        rw [scanServers_cons_ok probe retry now off rest ss k h1 h2] at he
        dsimp only at he
        rcases List.mem_cons.mp he with heq | he'
        · subst heq
          exact List.mem_cons_self _ _
        · cases he'
      | false =>
        rw [scanServers_cons_fail probe retry now off rest ss k h1 h2] at he
        dsimp only at he
        rcases List.mem_cons.mp he with heq | he'
        · subst heq
          exact List.mem_cons_self _ _
        · exact List.mem_cons_of_mem _
            (scanServers_trace_idx_mem probe retry now rest _ (k + 1) e he')

theorem getD_mem {α : Type} [Inhabited α] (l : List α) (i : Nat) (h : i < l.length) :
    l.getD i default ∈ l := by
  rw [List.getD_eq_getElem l default h]
  exact List.getElem_mem h

theorem findActiveServer_ok_spec (c : serverPool) (probe : Nat → Bool) (now : Int) (k : Nat)
    (starting : Int) (h0 : 0 ≤ starting) (i : Nat) (c1 : serverPool) (k1 : Nat)
    (tr : List ScanEvent)
    (heq : c.findActiveServer probe now k starting = (Except.ok i, c1, k1, tr)) :
    tr.getLast? = some (ScanEvent.probe i true) ∧ (c1.servers.getD i default).alive = true := by
  simp only [serverPool.findActiveServer] at heq
  by_cases hN : c.servers.length = 0
  · have hord : evalOrder c.servers.length (startIndex c.servers.length starting) = [] := by
      rw [hN]
      rfl
    rw [hord, scanServers_nil] at heq
    simp at heq
  · have hNpos : 0 < c.servers.length := Nat.pos_of_ne_zero hN
    obtain ⟨hs0, hs1⟩ := startIndex_bounds c.servers.length starting h0 hNpos
    have hb := evalOrder_bounds c.servers.length (startIndex c.servers.length starting) hs0 hs1
    rcases hf : (scanServers probe c.checkRetryTimeout now
        (evalOrder c.servers.length (startIndex c.servers.length starting)) c.servers k).found
      with _ | j
    · rw [hf] at heq
      simp at heq
    · have := scanServers_found_spec probe c.checkRetryTimeout now _ c.servers k
        (fun off hoff => ⟨(hb off hoff).1, (hb off hoff).2⟩) j hf
      rw [hf] at heq
      simp only [Prod.mk.injEq] at heq
      obtain ⟨hj, hc1, _, htr⟩ := heq
      cases hj
      subst hc1
      subst htr
      exact this

/-- C1: for every non-empty server pool, a successful SelectServer
(serverPool.Get) call never returns the address of a server whose liveness
probe failed during that call: the returned address belongs to an entry whose
probe is the last event of the scan trace with outcome success, and that
entry is marked alive in the post state. -/
theorem C1_select_never_returns_failed_probe (c : serverPool) (probe : Nat → Bool)
    (now : Int) (k : Nat) (hL : -1 ≤ c.lastUsed) (addr : String) (c' : serverPool)
    (k' : Nat) (tr : List ScanEvent)
    (heq : serverPool.Get c probe now k = (Except.ok addr, c', k', tr)) :
    ∃ i, tr.getLast? = some (ScanEvent.probe i true) ∧
      (c'.servers.getD i default).alive = true ∧
      addr = (c'.servers.getD i default).address := by
  simp only [serverPool.Get] at heq
  by_cases hN : c.servers.length ≠ 0
  · rw [if_pos hN] at heq
    rcases hfa : c.findActiveServer probe now k
        (if c.strategy = poolStrategy.RR then c.lastUsed + 1 else 0) with ⟨r1, c1, k1, tr1⟩
    cases r1 with
    | ok j =>
      rw [hfa] at heq
      simp only [Prod.mk.injEq] at heq
      obtain ⟨haddr, hc', hk', htr⟩ := heq
      have h0 : 0 ≤ (if c.strategy = poolStrategy.RR then c.lastUsed + 1 else 0) := by
        split_ifs
        · omega
        · exact le_refl 0
      have hspec := findActiveServer_ok_spec c probe now k _ h0 j c1 k1 tr1 hfa
      refine ⟨j, ?_, ?_, ?_⟩
      · rw [← htr]; exact hspec.1
      · rw [← hc']; exact hspec.2
      · rw [← hc']; exact (Except.ok.inj haddr).symm
    | error e =>
      rw [hfa] at heq
      simp at heq
  · rw [if_neg hN] at heq
    simp at heq

/-- C2: if every probe performed during a SelectServer call fails, the call
returns the exhaustion error (the code message is "no active ldap server
found") after at most 3 x N candidate evaluations: the scan trace has at most
3 x N events and no candidate index occurs in it more than 3 times. -/
theorem C2_select_exhaustion_bound (c : serverPool) (probe : Nat → Bool) (now : Int)
    (k : Nat) (hfail : ∀ j, probe j = false) (hN : c.servers.length ≠ 0)
    (hL : -1 ≤ c.lastUsed) :
    (serverPool.Get c probe now k).1 = Except.error "no active ldap server found" ∧
    (serverPool.Get c probe now k).2.2.2.length ≤ 3 * c.servers.length ∧
    ∀ i, ((serverPool.Get c probe now k).2.2.2.map ScanEvent.idx).count i ≤ 3 := by
  have hNpos : 0 < c.servers.length := Nat.pos_of_ne_zero hN
  have h0 : 0 ≤ (if c.strategy = poolStrategy.RR then c.lastUsed + 1 else 0) := by
    split_ifs
    · omega
    · exact le_refl 0
  obtain ⟨hs0, hs1⟩ := startIndex_bounds c.servers.length _ h0 hNpos
  have hnone := scanServers_none_of_all_false probe c.checkRetryTimeout now hfail
    (evalOrder c.servers.length
      (startIndex c.servers.length (if c.strategy = poolStrategy.RR then c.lastUsed + 1 else 0)))
    c.servers k
  have hidx := scanServers_trace_idx_of_none probe c.checkRetryTimeout now
    (evalOrder c.servers.length
      (startIndex c.servers.length (if c.strategy = poolStrategy.RR then c.lastUsed + 1 else 0)))
    c.servers k hnone
  simp only [serverPool.Get, serverPool.findActiveServer]
  rw [if_pos hN, hnone]
  refine ⟨rfl, ?_, ?_⟩
  · have hlen : (scanServers probe c.checkRetryTimeout now
        (evalOrder c.servers.length
          (startIndex c.servers.length
            (if c.strategy = poolStrategy.RR then c.lastUsed + 1 else 0)))
        c.servers k).trace.length =
        3 * c.servers.length := by
      have := congrArg List.length hidx
      rw [List.length_map, List.length_map, evalOrder_length] at this
      exact this
    exact le_of_eq hlen
  · intro i
    rw [hidx]
    exact evalOrder_map_toNat_count c.servers.length _ hs0 hs1 i

/-- C7: during a SelectServer call, a candidate marked dead whose last check
is more recent than retryBackoff is skipped without being probed: no probe
event for it occurs in the scan trace, and its entry is left untouched. -/
theorem C7_dead_backoff_not_probed (c : serverPool) (probe : Nat → Bool) (now : Int)
    (k : Nat) (i : Nat) (hdead : (c.servers.getD i default).alive = false)
    (hrecent : now - (c.servers.getD i default).lastCheck < c.checkRetryTimeout) :
    (∀ b, ScanEvent.probe i b ∉ (serverPool.Get c probe now k).2.2.2) ∧
    (serverPool.Get c probe now k).2.1.servers.getD i default = c.servers.getD i default := by
  simp only [serverPool.Get, serverPool.findActiveServer]
  by_cases hN : c.servers.length ≠ 0
  · rw [if_pos hN]
    have hnp := scanServers_dead_recent_not_probed probe c.checkRetryTimeout now
      (evalOrder c.servers.length
        (startIndex c.servers.length (if c.strategy = poolStrategy.RR then c.lastUsed + 1 else 0)))
      c.servers k i hdead hrecent
    have hfr := scanServers_frame probe c.checkRetryTimeout now
      (evalOrder c.servers.length
        (startIndex c.servers.length (if c.strategy = poolStrategy.RR then c.lastUsed + 1 else 0)))
      c.servers k i
      (lastProbeOutcome_none_of_not_mem i _ hnp)
    rcases hf : (scanServers probe c.checkRetryTimeout now
        (evalOrder c.servers.length
          (startIndex c.servers.length (if c.strategy = poolStrategy.RR then c.lastUsed + 1 else 0)))
        c.servers k).found with _ | j
    · dsimp only
      exact ⟨hnp, hfr⟩
    · dsimp only
      exact ⟨hnp, hfr⟩
  · rw [if_neg hN]
    exact ⟨fun b h => List.not_mem_nil _ h, rfl⟩

/-- C9: a SelectServer call updates exactly the entries it probes: an entry
whose last probe in the trace has outcome b ends with alive = b and lastCheck
equal to the probe time, and an entry never probed in the trace is unchanged
(skipped candidates are not mutated). -/
theorem C9_select_mutates_probed_entries (c : serverPool) (probe : Nat → Bool)
    (now : Int) (k : Nat) (hL : -1 ≤ c.lastUsed) :
    (∀ i b, lastProbeOutcome (serverPool.Get c probe now k).2.2.2 i = some b →
        ((serverPool.Get c probe now k).2.1.servers.getD i default).alive = b ∧
        ((serverPool.Get c probe now k).2.1.servers.getD i default).lastCheck = now) ∧
    (∀ i, lastProbeOutcome (serverPool.Get c probe now k).2.2.2 i = none →
        (serverPool.Get c probe now k).2.1.servers.getD i default =
          c.servers.getD i default) := by
  simp only [serverPool.Get, serverPool.findActiveServer]
  by_cases hN : c.servers.length ≠ 0
  · rw [if_pos hN]
    have hNpos : 0 < c.servers.length := Nat.pos_of_ne_zero hN
    have h0 : 0 ≤ (if c.strategy = poolStrategy.RR then c.lastUsed + 1 else 0) := by
      split_ifs
      · omega
      · exact le_refl 0
    obtain ⟨hs0, hs1⟩ := startIndex_bounds c.servers.length _ h0 hNpos
    have hb := evalOrder_bounds c.servers.length _ hs0 hs1
    have hps := scanServers_probed_spec probe c.checkRetryTimeout now
      (evalOrder c.servers.length
        (startIndex c.servers.length (if c.strategy = poolStrategy.RR then c.lastUsed + 1 else 0)))
      c.servers k (fun off hoff => hb off hoff)
    have hfr := scanServers_frame probe c.checkRetryTimeout now
      (evalOrder c.servers.length
        (startIndex c.servers.length (if c.strategy = poolStrategy.RR then c.lastUsed + 1 else 0)))
      c.servers k
    rcases hf : (scanServers probe c.checkRetryTimeout now
        (evalOrder c.servers.length
          (startIndex c.servers.length (if c.strategy = poolStrategy.RR then c.lastUsed + 1 else 0)))
        c.servers k).found with _ | j
    · dsimp only
      exact ⟨fun i b h => hps i b h, fun i h => hfr i h⟩
    · dsimp only
      exact ⟨fun i b h => hps i b h, fun i h => hfr i h⟩
  · rw [if_neg hN]
    exact ⟨fun i b h => Option.noConfusion h, fun i _ => rfl⟩

/-- C6: one round-robin step with every entry alive and a succeeding probe:
the call starts scanning at (lastUsed + 1) mod N, returns exactly that index
(its address), records it as the new lastUsed, stamps that entry with the
probe time, and leaves every entry alive, so that consecutive successful
calls from the initial lastUsed = -1 visit 0, 1, ..., N-1, 0, ... -/
theorem C6_round_robin_step (c : serverPool) (probe : Nat → Bool) (now : Int) (k : Nat)
    (hRR : c.strategy = poolStrategy.RR) (hL1 : -1 ≤ c.lastUsed)
    (hL2 : c.lastUsed < (c.servers.length : Int)) (hN : c.servers.length ≠ 0)
    (halive : ∀ j, j < c.servers.length → (c.servers.getD j default).alive = true)
    (hp : probe k = true) :
    serverPool.Get c probe now k =
      (Except.ok
        ((c.servers.getD ((c.lastUsed + 1) % (c.servers.length : Int)).toNat default).address),
       { c with
         servers := c.servers.set ((c.lastUsed + 1) % (c.servers.length : Int)).toNat
           { c.servers.getD ((c.lastUsed + 1) % (c.servers.length : Int)).toNat default with
             lastCheck := now, alive := true },
         lastUsed := ((((c.lastUsed + 1) % (c.servers.length : Int)).toNat : Nat) : Int) },
       k + 1,
       [ScanEvent.probe ((c.lastUsed + 1) % (c.servers.length : Int)).toNat true]) := by
  have hNpos : 0 < c.servers.length := Nat.pos_of_ne_zero hN
  have hNpos' : (0 : Int) < (c.servers.length : Int) := by exact_mod_cast hNpos
  have hst : startIndex c.servers.length (c.lastUsed + 1) =
      (c.lastUsed + 1) % (c.servers.length : Int) := by
    unfold startIndex
    split_ifs with h
    · have heq : c.lastUsed + 1 = (c.servers.length : Int) := by omega
      rw [heq, Int.emod_self]
    · rw [Int.emod_eq_of_lt (by omega) (by omega)]
  have hjb : 0 ≤ (c.lastUsed + 1) % (c.servers.length : Int) ∧
      (c.lastUsed + 1) % (c.servers.length : Int) < (c.servers.length : Int) := by
    constructor
    · exact Int.emod_nonneg _ (by omega)
    · exact Int.emod_lt_of_pos _ hNpos'
  have hjlt : ((c.lastUsed + 1) % (c.servers.length : Int)).toNat < c.servers.length := by
    omega
  obtain ⟨rest, hord⟩ := evalOrder_cons c.servers.length
    ((c.lastUsed + 1) % (c.servers.length : Int)) hjb.1 hjb.2
  have hhd := scanServers_head_alive_ok probe c.checkRetryTimeout now
    ((c.lastUsed + 1) % (c.servers.length : Int)) rest c.servers k
    (halive _ hjlt) hp
  simp only [serverPool.Get, serverPool.findActiveServer]
  rw [if_pos hN, if_pos hRR, hst, hord, hhd]
  dsimp only
  rw [getD_set_self _ _ _ hjlt]

/-- C10 counterexample pool: a one-server pool built by NewServerPool with a
10ms retry backoff, at construction time 0. -/
def c10pool : serverPool :=
  match NewServerPool ["a"] 10 1 true 0 with
  | Except.ok sp => sp
  | Except.error _ => default

/-- C10 counterexample: the claim that in the first SelectServer call no
candidate is skipped by the dead-server backoff rule (every candidate reached
by the scan is probed) is false: with one unreachable server, the first call
probes it once in pass one and then skips it, within the same first call, in
passes two and three. -/
theorem C10_counterexample :
    (serverPool.Get c10pool (fun _ => false) 0 0).2.2.2 =
      [ScanEvent.probe 0 false, ScanEvent.skip 0, ScanEvent.skip 0] ∧
    ScanEvent.skip 0 ∈ (serverPool.Get c10pool (fun _ => false) 0 0).2.2.2 := by
  constructor
  · decide
  · decide

/-- C10 (amended): immediately after NewServerPool succeeds, every entry is
alive with lastCheck equal to the construction time, regardless of
reachability; consequently, in the first SelectServer call no candidate is
skipped by the dead-server backoff rule before it has first been probed in
that same call: every skip event in the trace is preceded by a failed probe
of the same candidate. -/
theorem C10_new_pool_alive_first_call (servers : List String) (rt ct : Int) (rr : Bool)
    (now : Int) (sp : serverPool) (h : NewServerPool servers rt ct rr now = Except.ok sp) :
    (∀ i, i < sp.servers.length →
        (sp.servers.getD i default).alive = true ∧
        (sp.servers.getD i default).lastCheck = now) ∧
    (∀ (probe : Nat → Bool) (now2 : Int) (k : Nat) (t1 : List ScanEvent) (i : Nat)
        (t2 : List ScanEvent),
        (serverPool.Get sp probe now2 k).2.2.2 = t1 ++ ScanEvent.skip i :: t2 →
        ScanEvent.probe i false ∈ t1) := by
  simp only [NewServerPool] at h
  by_cases hne : servers.length = 0
  · rw [if_pos hne] at h
    cases h
  · rw [if_neg hne] at h
    have hsp := Except.ok.inj h
    have hmem : ∀ x ∈ sp.servers, x.alive = true ∧ x.lastCheck = now := by
      intro x hx
      rw [← hsp] at hx
      dsimp only at hx
      rcases List.mem_map.mp hx with ⟨a, _, hax⟩
      rw [← hax]
      exact ⟨rfl, rfl⟩
    have halive : ∀ i, i < sp.servers.length →
        (sp.servers.getD i default).alive = true ∧
        (sp.servers.getD i default).lastCheck = now :=
      fun i hi => hmem _ (getD_mem sp.servers i hi)
    refine ⟨halive, ?_⟩
    intro probe now2 k t1 i t2 heq
    by_cases hN : sp.servers.length ≠ 0
    · simp only [serverPool.Get, serverPool.findActiveServer] at heq
      rw [if_pos hN] at heq
      have key : ∀ tr0, tr0 = (scanServers probe sp.checkRetryTimeout now2
          (evalOrder sp.servers.length
            (startIndex sp.servers.length
              (if sp.strategy = poolStrategy.RR then sp.lastUsed + 1 else 0)))
          sp.servers k).trace →
          tr0 = t1 ++ ScanEvent.skip i :: t2 → ScanEvent.probe i false ∈ t1 := by
        intro tr0 htr0 hsplit
        have hskipmem : ScanEvent.skip i ∈ tr0 := by
          rw [hsplit]
          exact List.mem_append.mpr (Or.inr (List.mem_cons_self _ _))
        rw [htr0] at hskipmem
        have hidxmem := scanServers_trace_idx_mem probe sp.checkRetryTimeout now2
          _ sp.servers k _ hskipmem
        have hiC : ∀ j, (sp.servers.getD j default).alive = false →
            ¬ j < sp.servers.length := by
          intro j hj hjlt
          rw [(halive j hjlt).1] at hj
          cases hj
        have := scanServers_skip_after_probe probe sp.checkRetryTimeout now2
          (evalOrder sp.servers.length
            (startIndex sp.servers.length
              (if sp.strategy = poolStrategy.RR then sp.lastUsed + 1 else 0)))
          sp.servers k (fun j => ¬ j < sp.servers.length) hiC t1 i t2
          (by rw [← htr0]; exact hsplit)
        rcases this with hbad | hgood
        · exfalso
          apply hbad
          rcases List.mem_map.mp hidxmem with ⟨off, hoff, hoffi⟩
          simp only [ScanEvent.idx] at hoffi
          have hNpos : 0 < sp.servers.length := Nat.pos_of_ne_zero hN
          have h0 : 0 ≤ (if sp.strategy = poolStrategy.RR then sp.lastUsed + 1 else 0) := by
            have hLU : sp.lastUsed = -1 := by rw [← hsp]
            split_ifs
            · omega
            · exact le_refl 0
          obtain ⟨hs0, hs1⟩ := startIndex_bounds sp.servers.length _ h0 hNpos
          have hbo := evalOrder_bounds sp.servers.length _ hs0 hs1 off hoff
          rw [← hoffi]
          exact hbo.2
        · exact hgood
      rcases hf : (scanServers probe sp.checkRetryTimeout now2
          (evalOrder sp.servers.length
            (startIndex sp.servers.length
              (if sp.strategy = poolStrategy.RR then sp.lastUsed + 1 else 0)))
          sp.servers k).found with _ | j
      · rw [hf] at heq
        exact key _ rfl heq
      · rw [hf] at heq
        exact key _ rfl heq
    · exfalso
      apply hN
      rw [← hsp]
      dsimp only
      rw [List.length_map]
      intro hc
      exact hne hc

/-- A two-server fixture pool for witnesses. -/
def sp2 : serverPool :=
  { servers := [{ address := "a", alive := true, checkTimeout := 1, lastCheck := 0 },
                { address := "b", alive := true, checkTimeout := 1, lastCheck := 0 }],
    lastUsed := -1, strategy := poolStrategy.RR, checkRetryTimeout := 10 }

/-- The pool state after the C1 witness call: the first probe failed, the
second succeeded. -/
def sp2after : serverPool :=
  { servers := [{ address := "a", alive := false, checkTimeout := 1, lastCheck := 0 },
                { address := "b", alive := true, checkTimeout := 1, lastCheck := 0 }],
    lastUsed := 1, strategy := poolStrategy.RR, checkRetryTimeout := 10 }

/-- Witness for C1 at a concrete input: the probe of server 0 fails and the
probe of server 1 succeeds, so the call returns the address of server 1. -/
theorem C1_witness :
    ∃ i, ([ScanEvent.probe 0 false, ScanEvent.probe 1 true].getLast? =
            some (ScanEvent.probe i true)) ∧
      (sp2after.servers.getD i default).alive = true ∧
      "b" = (sp2after.servers.getD i default).address :=
  C1_select_never_returns_failed_probe sp2 (fun n => decide (n = 1)) 0 0 (by decide)
    "b" sp2after 2 [ScanEvent.probe 0 false, ScanEvent.probe 1 true] rfl

/-- Witness for C2 at a concrete input: with every probe failing on a
two-server pool, the call exhausts with the error and a bounded trace. -/
theorem C2_witness :
    (serverPool.Get sp2 (fun _ => false) 0 0).1 =
      Except.error "no active ldap server found" ∧
    (serverPool.Get sp2 (fun _ => false) 0 0).2.2.2.length ≤ 3 * sp2.servers.length ∧
    ∀ i, ((serverPool.Get sp2 (fun _ => false) 0 0).2.2.2.map ScanEvent.idx).count i ≤ 3 :=
  C2_select_exhaustion_bound sp2 (fun _ => false) 0 0 (fun _ => rfl) (by decide) (by decide)

/-- Witness for C6 at a concrete input: with all servers alive and every
probe succeeding, the first round-robin step returns index 0. -/
theorem C6_witness :
    serverPool.Get sp2 (fun _ => true) 5 0 =
      (Except.ok
        ((sp2.servers.getD ((sp2.lastUsed + 1) % (sp2.servers.length : Int)).toNat default).address),
       { sp2 with
         servers := sp2.servers.set ((sp2.lastUsed + 1) % (sp2.servers.length : Int)).toNat
           { sp2.servers.getD ((sp2.lastUsed + 1) % (sp2.servers.length : Int)).toNat default with
             lastCheck := 5, alive := true },
         lastUsed := ((((sp2.lastUsed + 1) % (sp2.servers.length : Int)).toNat : Nat) : Int) },
       0 + 1,
       [ScanEvent.probe ((sp2.lastUsed + 1) % (sp2.servers.length : Int)).toNat true]) :=
  C6_round_robin_step sp2 (fun _ => true) 5 0 rfl (by decide) (by decide) (by decide)
    (by decide) rfl

/-- A fixture pool with a dead server 0 recently checked, for the C7
witness. -/
def sp7 : serverPool :=
  { servers := [{ address := "a", alive := false, checkTimeout := 1, lastCheck := 95 },
                { address := "b", alive := true, checkTimeout := 1, lastCheck := 0 }],
    lastUsed := -1, strategy := poolStrategy.RR, checkRetryTimeout := 10 }

/-- Witness for C7 at a concrete input: server 0 is dead and was checked 5
time units ago with a backoff of 10, so the call never probes it and leaves
its entry unchanged. -/
theorem C7_witness :
    (∀ b, ScanEvent.probe 0 b ∉ (serverPool.Get sp7 (fun _ => true) 100 0).2.2.2) ∧
    (serverPool.Get sp7 (fun _ => true) 100 0).2.1.servers.getD 0 default =
      sp7.servers.getD 0 default :=
  C7_dead_backoff_not_probed sp7 (fun _ => true) 100 0 0 (by decide) (by decide)

/-- Witness for C9 at a concrete input. -/
theorem C9_witness :
    (∀ i b, lastProbeOutcome (serverPool.Get sp2 (fun _ => true) 7 0).2.2.2 i = some b →
        ((serverPool.Get sp2 (fun _ => true) 7 0).2.1.servers.getD i default).alive = b ∧
        ((serverPool.Get sp2 (fun _ => true) 7 0).2.1.servers.getD i default).lastCheck = 7) ∧
    (∀ i, lastProbeOutcome (serverPool.Get sp2 (fun _ => true) 7 0).2.2.2 i = none →
        (serverPool.Get sp2 (fun _ => true) 7 0).2.1.servers.getD i default =
          sp2.servers.getD i default) :=
  C9_select_mutates_probed_entries sp2 (fun _ => true) 7 0 (by decide)

/-- The expected pool built by the C10 witness construction. -/
def sp10 : serverPool :=
  { servers := [{ address := "a", alive := true, checkTimeout := 1000000, lastCheck := 0 },
                { address := "b", alive := true, checkTimeout := 1000000, lastCheck := 0 }],
    lastUsed := -1, strategy := poolStrategy.RR, checkRetryTimeout := 10000000 }

/-- Witness for the amended C10 at a concrete input. -/
theorem C10_witness :
    (∀ i, i < sp10.servers.length →
        (sp10.servers.getD i default).alive = true ∧
        (sp10.servers.getD i default).lastCheck = 0) ∧
    (∀ (probe : Nat → Bool) (now2 : Int) (k : Nat) (t1 : List ScanEvent) (i : Nat)
        (t2 : List ScanEvent),
        (serverPool.Get sp10 probe now2 k).2.2.2 = t1 ++ ScanEvent.skip i :: t2 →
        ScanEvent.probe i false ∈ t1) :=
  C10_new_pool_alive_first_call ["a", "b"] 10 1 true 0 sp10 rfl

theorem NewConn_conns (st : PState) (env : NetEnv) (u : Bool) :
    (channelPool.NewConn st env u).2.1.pool.conns = st.pool.conns := by
  rcases hg : st.pool.serverPool.Get env.probe env.now st.probeCtr with ⟨r1, sp1, k1, tr⟩
  cases r1 with
  | ok a =>
    simp only [channelPool.NewConn, hg]
    cases hd : env.dial st.dialCtr <;> rfl
  | error e =>
    simp only [channelPool.NewConn, hg]

theorem NewConn_error_no_created (st : PState) (env : NetEnv) (u : Bool) (id : Nat) :
    PoolAction.created id ∈ (channelPool.NewConn st env u).2.2 →
    ∃ pc, (channelPool.NewConn st env u).1 = Except.ok pc := by
  rcases hg : st.pool.serverPool.Get env.probe env.now st.probeCtr with ⟨r1, sp1, k1, tr⟩
  cases r1 with
  | ok a =>
    simp only [channelPool.NewConn, hg]
    cases hd : env.dial st.dialCtr with
    | none =>
      intro hmem
      rcases List.mem_cons.mp hmem with heq | hmem'
      · cases heq
      · cases hmem'
    | some cid =>
      intro _
      exact ⟨_, rfl⟩
  | error e =>
    simp only [channelPool.NewConn, hg]
    intro hmem
    cases hmem

theorem NewConn_ok_shape (st : PState) (env : NetEnv) (u : Bool) (pc : PoolConn)
    (st1 : PState) (a : List PoolAction)
    (h : channelPool.NewConn st env u = (Except.ok pc, st1, a)) :
    a = [PoolAction.dialAttempt st.dialCtr, PoolAction.created pc.Conn] ∧
    env.dial st.dialCtr = some pc.Conn := by
  rcases hg : st.pool.serverPool.Get env.probe env.now st.probeCtr with ⟨r1, sp1, k1, tr⟩
  cases r1 with
  | ok addr =>
    simp only [channelPool.NewConn, hg] at h
    cases hd : env.dial st.dialCtr with
    | none =>
      rw [hd] at h
      simp at h
    | some cid =>
      rw [hd] at h
      simp only [Prod.mk.injEq] at h
      obtain ⟨hpc, _, ha⟩ := h
      have hc : pc.Conn = cid := by
        rw [← Except.ok.inj hpc]
        rfl
      constructor
      · rw [← ha, hc]
      · rw [hc]
  | error e =>
    simp only [channelPool.NewConn, hg] at h
    simp at h

theorem fillPool_error_closes_buffer (env : NetEnv) (u : Bool) :
    ∀ (n : Nat) (st : PState) (e : PErr) (acts : List PoolAction)
      (buf : List (Option Nat)),
      fillPool env u n st = (Except.error e, acts) →
      st.pool.conns = some buf →
      ∀ cid, some cid ∈ buf → PoolAction.closeConn cid ∈ acts
  | 0, st, e, acts, buf, hfill, _, cid, _ => by
    simp only [fillPool] at hfill
    cases congrArg Prod.fst hfill
  | n + 1, st, e, acts, buf, hfill, hbuf, cid, hmem => by
    simp only [fillPool] at hfill
    rcases hnc : channelPool.NewConn st env u with ⟨r1, st1, a1⟩
    have hc1 : st1.pool.conns = some buf := by
      have := NewConn_conns st env u
      rw [hnc] at this
      rw [← hbuf]
      exact this
    cases r1 with
    | ok pc =>
      rw [hnc] at hfill
      dsimp only at hfill
      have hfe : (fillPool env u n (pushConn st1 pc.Conn)).1 = Except.error e ∧
          acts = a1 ++ (fillPool env u n (pushConn st1 pc.Conn)).2 := by
        have h1 := congrArg Prod.fst hfill
        have h2 := congrArg (fun p => p.2) hfill
        exact ⟨h1, h2.symm⟩
      rcases hrec : fillPool env u n (pushConn st1 pc.Conn) with ⟨re, racts⟩
      rw [hrec] at hfe
      have hply : (pushConn st1 pc.Conn).pool.conns = some (buf ++ [some pc.Conn]) := by
        simp only [pushConn, hc1]
        rfl
      have hre : re = Except.error e := hfe.1
      have := fillPool_error_closes_buffer env u n (pushConn st1 pc.Conn) e racts
        (buf ++ [some pc.Conn]) (by rw [hrec, hre]) hply cid
        (List.mem_append.mpr (Or.inl hmem))
      rw [hfe.2]
      exact List.mem_append.mpr (Or.inr this)
    | error e0 =>
      rw [hnc] at hfill
      dsimp only at hfill
      have hacts : acts = a1 ++ (st1.pool.Close).2 := (congrArg (fun p => p.2) hfill).symm
      have hclose : (st1.pool.Close).2 = (buf.filterMap id).map PoolAction.closeConn := by
        simp only [channelPool.Close, hc1]
      rw [hacts, hclose]
      refine List.mem_append.mpr (Or.inr ?_)
      exact List.mem_map.mpr ⟨cid, List.mem_filterMap.mpr ⟨some cid, hmem, rfl⟩, rfl⟩

theorem fillPool_error_closes_created (env : NetEnv) (u : Bool) :
    ∀ (n : Nat) (st : PState) (buf : List (Option Nat)) (e : PErr)
      (acts : List PoolAction),
      st.pool.conns = some buf →
      fillPool env u n st = (Except.error e, acts) →
      ∀ cid, PoolAction.created cid ∈ acts → PoolAction.closeConn cid ∈ acts
  | 0, st, buf, e, acts, _, hfill, cid, _ => by
    simp only [fillPool] at hfill
    cases congrArg Prod.fst hfill
  | n + 1, st, buf, e, acts, hbuf, hfill, cid, hmem => by
    simp only [fillPool] at hfill
    rcases hnc : channelPool.NewConn st env u with ⟨r1, st1, a1⟩
    have hc1 : st1.pool.conns = some buf := by
      have := NewConn_conns st env u
      rw [hnc] at this
      rw [← hbuf]
      exact this
    cases r1 with
    | ok pc =>
      rw [hnc] at hfill
      dsimp only at hfill
      rcases hrec : fillPool env u n (pushConn st1 pc.Conn) with ⟨re, racts⟩
      rw [hrec] at hfill
      have hre : re = Except.error e := congrArg Prod.fst hfill
      have hacts : acts = a1 ++ racts := (congrArg (fun p => p.2) hfill).symm
      have hply : (pushConn st1 pc.Conn).pool.conns = some (buf ++ [some pc.Conn]) := by
        simp only [pushConn, hc1]
        rfl
      have hshape := NewConn_ok_shape st env u pc st1 a1 hnc
      rw [hacts] at hmem ⊢
      rcases List.mem_append.mp hmem with hin1 | hin2
      · rw [hshape.1] at hin1
        rcases List.mem_cons.mp hin1 with heq | hin1'
        · cases heq
        · rcases List.mem_cons.mp hin1' with heq | hin1''
          · have hid : cid = pc.Conn := by cases heq; rfl
            have := fillPool_error_closes_buffer env u n (pushConn st1 pc.Conn) e racts
              (buf ++ [some pc.Conn]) (by rw [hrec, hre]) hply cid
              (by
                rw [hid]
                exact List.mem_append.mpr (Or.inr (List.mem_cons_self _ _)))
            exact List.mem_append.mpr (Or.inr this)
          · cases hin1''
      · have := fillPool_error_closes_created env u n (pushConn st1 pc.Conn)
          (buf ++ [some pc.Conn]) e racts hply (by rw [hrec, hre]) cid hin2
        exact List.mem_append.mpr (Or.inr this)
    | error e0 =>
      rw [hnc] at hfill
      dsimp only at hfill
      have hacts : acts = a1 ++ (st1.pool.Close).2 := (congrArg (fun p => p.2) hfill).symm
      rw [hacts] at hmem
      exfalso
      rcases List.mem_append.mp hmem with hin1 | hin2
      · rcases NewConn_error_no_created st env u cid (by rw [hnc]; exact hin1) with ⟨pc, hok⟩
        rw [hnc] at hok
        cases hok
      · have hclose : (st1.pool.Close).2 = ((st1.pool.conns.getD []).filterMap id).map
            PoolAction.closeConn := by
          simp only [channelPool.Close, hc1, Option.getD_some]
        rw [hclose] at hin2
        rcases List.mem_map.mp hin2 with ⟨x, _, hx⟩
        cases hx

theorem fillPool_ok_dials (env : NetEnv) (u : Bool) :
    ∀ (n : Nat) (st : PState) (st2 : PState) (acts : List PoolAction),
      fillPool env u n st = (Except.ok st2, acts) →
      ∀ d, PoolAction.dialAttempt d ∈ acts → (env.dial d).isSome
  | 0, st, st2, acts, hfill, d, hmem => by
    simp only [fillPool] at hfill
    have hacts : ([] : List PoolAction) = acts := congrArg (fun p => p.2) hfill
    rw [← hacts] at hmem
    cases hmem
  | n + 1, st, st2, acts, hfill, d, hmem => by
    simp only [fillPool] at hfill
    rcases hnc : channelPool.NewConn st env u with ⟨r1, st1, a1⟩
    cases r1 with
    | ok pc =>
      rw [hnc] at hfill
      dsimp only at hfill
      rcases hrec : fillPool env u n (pushConn st1 pc.Conn) with ⟨re, racts⟩
      rw [hrec] at hfill
      have hacts : acts = a1 ++ racts := (congrArg (fun p => p.2) hfill).symm
      have hre : re = Except.ok st2 := congrArg Prod.fst hfill
      have hshape := NewConn_ok_shape st env u pc st1 a1 hnc
      rw [hacts] at hmem
      rcases List.mem_append.mp hmem with hin1 | hin2
      · rw [hshape.1] at hin1
        rcases List.mem_cons.mp hin1 with heq | hin1'
        · have hd : d = st.dialCtr := by cases heq; rfl
          rw [hd, hshape.2]
          rfl
        · rcases List.mem_cons.mp hin1' with heq | hin1''
          · cases heq
          · cases hin1''
      · exact fillPool_ok_dials env u n (pushConn st1 pc.Conn) st2 racts
          (by rw [hrec, hre]) d hin2
    | error e0 =>
      rw [hnc] at hfill
      dsimp only at hfill
      cases congrArg Prod.fst hfill

/-- C3: a pooled connection whose most recent operation produced a result
code in the disposal set is physically torn down by the wrapper close and is
never placed into the idle buffer: the pool state is unchanged, the only
action is the physical close, and the connection is absent from the idle
buffer afterwards (it was not there while checked out, by exclusive
ownership). -/
theorem C3_dispose_code_never_rebuffered (p : PoolConn) (c : channelPool) (code : Nat)
    (h1 : p.lastResultCode = some code) (h2 : code ∈ p.closeAt)
    (h3 : inIdle c p.Conn = false) :
    PoolConn.close p c = (c, [PoolAction.closeConn p.Conn]) ∧
    inIdle (PoolConn.close p c).1 p.Conn = false := by
  have hcl : PoolConn.close p c = (c, [PoolAction.closeConn p.Conn]) := by
    simp only [PoolConn.close, h1]
    rw [if_pos h2]
  exact ⟨hcl, by rw [hcl]; exact h3⟩

/-- Witness fixture: a wrapper whose last operation returned disposal code
49 over a pool with one other idle connection. -/
def pc3 : PoolConn := { Conn := 7, closeAt := [3, 49, 200], lastResultCode := some 49 }

/-- Witness fixture pool for C3 and C4. -/
def cp3 : channelPool :=
  { conns := some [some 5], maxCap := 2, serverPool := sp2, useTLS := false,
    closeAt := [3, 49, 200] }

/-- Witness for C3 at a concrete input. -/
theorem C3_witness :
    PoolConn.close pc3 cp3 = (cp3, [PoolAction.closeConn pc3.Conn]) ∧
    inIdle (PoolConn.close pc3 cp3).1 pc3.Conn = false :=
  C3_dispose_code_never_rebuffered pc3 cp3 49 rfl (by decide) (by decide)

/-- C4: closing the pool leaves a nil buffer (idle length zero), physically
closes every idle connection, makes every subsequent Get fail immediately
with the closed error without touching state, makes a release after the
close physically close the connection, and a second Close is a no-op. -/
theorem C4_close_all (st : PState) (env : NetEnv) (buf : List (Option Nat))
    (p2 : channelPool) (acts : List PoolAction)
    (hbuf : st.pool.conns = some buf) (hc : st.pool.Close = (p2, acts)) :
    p2.conns = none ∧
    p2.Len = 0 ∧
    acts = (buf.filterMap id).map PoolAction.closeConn ∧
    channelPool.Get { st with pool := p2 } env =
      (Except.error PErr.closed, { st with pool := p2 }, []) ∧
    (∀ cid, p2.put (some cid) = (p2, [PoolAction.closeConn cid])) ∧
    p2.Close = (p2, []) := by
  have hcl : st.pool.Close =
      ({ st.pool with conns := none }, (buf.filterMap id).map PoolAction.closeConn) := by
    simp only [channelPool.Close, hbuf]
  rw [hcl] at hc
  have hp2 : p2 = { st.pool with conns := none } := (Prod.mk.inj hc).1.symm
  have hacts : acts = (buf.filterMap id).map PoolAction.closeConn := (Prod.mk.inj hc).2.symm
  subst hp2
  refine ⟨rfl, rfl, hacts, ?_, ?_, ?_⟩
  · simp only [channelPool.Get]
  · intro cid
    simp only [channelPool.put]
  · simp only [channelPool.Close]

/-- Witness for C4 at a concrete input: a pool holding one idle connection
with id 5. -/
theorem C4_witness :
    ({ conns := none, maxCap := 2, serverPool := sp2, useTLS := false,
       closeAt := [3, 49, 200] } : channelPool).conns = none ∧
    ({ conns := none, maxCap := 2, serverPool := sp2, useTLS := false,
       closeAt := [3, 49, 200] } : channelPool).Len = 0 ∧
    [PoolAction.closeConn 5] =
      (([some 5] : List (Option Nat)).filterMap id).map PoolAction.closeConn ∧
    channelPool.Get
      { pool := { conns := none, maxCap := 2, serverPool := sp2, useTLS := false,
                  closeAt := [3, 49, 200] },
        probeCtr := 0, dialCtr := 0 }
      { now := 0, probe := fun _ => true, dial := fun _ => none, alive := fun _ => true } =
      (Except.error PErr.closed,
       { pool := { conns := none, maxCap := 2, serverPool := sp2, useTLS := false,
                   closeAt := [3, 49, 200] },
         probeCtr := 0, dialCtr := 0 }, []) ∧
    (∀ cid, ({ conns := none, maxCap := 2, serverPool := sp2, useTLS := false,
               closeAt := [3, 49, 200] } : channelPool).put (some cid) =
        ({ conns := none, maxCap := 2, serverPool := sp2, useTLS := false,
           closeAt := [3, 49, 200] }, [PoolAction.closeConn cid])) ∧
    ({ conns := none, maxCap := 2, serverPool := sp2, useTLS := false,
       closeAt := [3, 49, 200] } : channelPool).Close =
      ({ conns := none, maxCap := 2, serverPool := sp2, useTLS := false,
         closeAt := [3, 49, 200] }, []) :=
  C4_close_all
    { pool := cp3, probeCtr := 0, dialCtr := 0 }
    { now := 0, probe := fun _ => true, dial := fun _ => none, alive := fun _ => true }
    [some 5]
    { conns := none, maxCap := 2, serverPool := sp2, useTLS := false, closeAt := [3, 49, 200] }
    [PoolAction.closeConn 5] rfl rfl

/-- C5: Release (channelPool.put) rejects and logs a nil connection leaving
the pool unchanged; physically closes the connection when the pool is
closed; buffers it with a non-blocking put when the buffer has room; and
physically closes it instead when the buffer is at capacity, so the idle
buffer never grows beyond capacity. -/
theorem C5_release_semantics (c : channelPool) :
    (c.put none = (c, [PoolAction.logNilReject])) ∧
    (c.conns = none → ∀ cid, c.put (some cid) = (c, [PoolAction.closeConn cid])) ∧
    (∀ buf cid, c.conns = some buf → buf.length < c.maxCap →
        c.put (some cid) = ({ c with conns := some (buf ++ [some cid]) }, [])) ∧
    (∀ buf cid, c.conns = some buf → ¬ buf.length < c.maxCap →
        c.put (some cid) = (c, [PoolAction.closeConn cid])) ∧
    (c.Len ≤ c.maxCap → ∀ conn, ((c.put conn).1).Len ≤ c.maxCap) := by
  refine ⟨rfl, ?_, ?_, ?_, ?_⟩
  · intro hnone cid
    simp only [channelPool.put, hnone]
  · intro buf cid hbuf hlt
    simp only [channelPool.put, hbuf]
    rw [if_pos hlt]
  · intro buf cid hbuf hge
    simp only [channelPool.put, hbuf]
    rw [if_neg hge]
  · intro hlen conn
    cases conn with
    | none => exact hlen
    | some cid =>
      cases hbuf : c.conns with
      | none =>
        simp only [channelPool.put, hbuf]
        exact hlen
      | some buf =>
        simp only [channelPool.put, hbuf]
        by_cases hlt : buf.length < c.maxCap
        · rw [if_pos hlt]
          simp only [channelPool.Len, List.length_append, List.length_singleton]
          omega
        · rw [if_neg hlt]
          exact hlen

/-- Witness for C5 at a concrete input: the fixture pool cp3 with one idle
connection and capacity two behaves as stated in every branch. -/
theorem C5_witness :
    (cp3.put none = (cp3, [PoolAction.logNilReject])) ∧
    (cp3.conns = none → ∀ cid, cp3.put (some cid) = (cp3, [PoolAction.closeConn cid])) ∧
    (∀ buf cid, cp3.conns = some buf → buf.length < cp3.maxCap →
        cp3.put (some cid) = ({ cp3 with conns := some (buf ++ [some cid]) }, [])) ∧
    (∀ buf cid, cp3.conns = some buf → ¬ buf.length < cp3.maxCap →
        cp3.put (some cid) = (cp3, [PoolAction.closeConn cid])) ∧
    (cp3.Len ≤ cp3.maxCap → ∀ conn, ((cp3.put conn).1).Len ≤ cp3.maxCap) :=
  C5_release_semantics cp3

/-- C8: the connection pool constructor fails with the configuration error,
performing no dial, whenever initialSize is negative, capacity is
nonpositive, or initialSize exceeds capacity; with valid parameters a failed
construction physically closes every connection it had already created; and
a successful construction implies every attempted eager dial succeeded (so
any dial failure fails the whole construction). -/
theorem C8_constructor (initialCap maxCap : Int) (servers : serverPool) (useTLS : Bool)
    (closeAt : List Nat) (env : NetEnv) :
    ((initialCap < 0 ∨ maxCap ≤ 0 ∨ initialCap > maxCap) →
        NewChannelPool initialCap maxCap servers useTLS closeAt env =
          (Except.error (PErr.msg "invalid capacity settings"), [])) ∧
    (¬ (initialCap < 0 ∨ maxCap ≤ 0 ∨ initialCap > maxCap) →
        ∀ e acts, NewChannelPool initialCap maxCap servers useTLS closeAt env =
            (Except.error e, acts) →
          ∀ cid, PoolAction.created cid ∈ acts → PoolAction.closeConn cid ∈ acts) ∧
    (∀ r acts, NewChannelPool initialCap maxCap servers useTLS closeAt env =
        (Except.ok r, acts) →
      ∀ d, PoolAction.dialAttempt d ∈ acts → (env.dial d).isSome) := by
  refine ⟨?_, ?_, ?_⟩
  · intro hinvalid
    simp only [NewChannelPool]
    rw [if_pos hinvalid]
  · intro hvalid e acts hfill cid
    simp only [NewChannelPool] at hfill
    rw [if_neg hvalid] at hfill
    exact fillPool_error_closes_created env useTLS initialCap.toNat _ [] e acts rfl hfill cid
  · intro r acts hfill d
    simp only [NewChannelPool] at hfill
    by_cases hinvalid : initialCap < 0 ∨ maxCap ≤ 0 ∨ initialCap > maxCap
    · rw [if_pos hinvalid] at hfill
      cases congrArg Prod.fst hfill
    · rw [if_neg hinvalid] at hfill
      exact fillPool_ok_dials env useTLS initialCap.toNat _ r acts hfill d

/-- A witness environment in which every dial fails. -/
def env8 : NetEnv :=
  { now := 0, probe := fun _ => true, dial := fun _ => none, alive := fun _ => true }

/-- A witness environment in which every probe and every dial fails. -/
def env8b : NetEnv :=
  { now := 0, probe := fun _ => false, dial := fun _ => none, alive := fun _ => true }

/-- Witness for C8 at concrete inputs: initialSize 3 with capacity 2 fails
with the configuration error and no action, and a construction with a
failing dial oracle returns an error with every created connection closed. -/
theorem C8_witness :
    NewChannelPool 3 2 sp2 false [] env8 =
      (Except.error (PErr.msg "invalid capacity settings"), []) ∧
    (∀ e acts, NewChannelPool 1 2 sp2 false [] env8b = (Except.error e, acts) →
        ∀ cid, PoolAction.created cid ∈ acts → PoolAction.closeConn cid ∈ acts) :=
  ⟨(C8_constructor 3 2 sp2 false [] env8).1 (by decide),
   (C8_constructor 1 2 sp2 false [] env8b).2.1 (by decide)⟩

end LdapPool
